import Mathlib

/-!
Shallow embedding of the deployment-tracker controller (Go) in Lean 4.

Go strings are modelled as `List Char`.  The embedded code only ever
searches for, slices around, and compares ASCII substrings; for such
patterns a byte-level occurrence in valid UTF-8 coincides with a
character-level occurrence (UTF-8 continuation bytes never equal ASCII
bytes), so the character-level model is faithful to Go's byte-level
string operations.

Sources embedded:
- `pkg/image` (`ExtractDigest`, `ExtractName`)
- `pkg/deploymentrecord/client.go` (`NewClient` validation, the
  `PostOne` attempt loop, `NewDeploymentRecord`)
- the controller (`PodEvent`, `getDeploymentName`, `getARDeploymentName`,
  `getContainerDigest`, `getCacheKey`, `recordContainer`, `processEvent`,
  `deploymentExists`)
-/

/-- Go `strings.Contains` style substring test on character lists
(`strings.Contains(s, pat)` is `containsSeq pat s`).  An empty pattern is
contained in every string, as in Go. -/
def containsSeq (pat : List Char) : List Char → Bool
  | [] => pat.isPrefixOf []
  | c :: rest => pat.isPrefixOf (c :: rest) || containsSeq pat rest

/-- Go `strings.Index(s, c)` for a single-character separator, as an
`Option`al index (`none` stands for Go's `-1`). -/
def indexOfChar (c : Char) : List Char → Option Nat
  | [] => none
  | x :: rest =>
    if x = c then some 0
    else (indexOfChar c rest).map (· + 1)

/-- Go `strings.LastIndex(s, c)` for a single-character separator, as an
`Option`al index (`none` stands for Go's `-1`). -/
def lastIndexOfChar (c : Char) : List Char → Option Nat
  | [] => none
  | x :: rest =>
    match lastIndexOfChar c rest with
    | some i => some (i + 1)
    | none => if x = c then some 0 else none

/-- Go `strings.ReplaceAll(s, pat, repl)` for a nonempty pattern:
non-overlapping, left-to-right, the replacement is not rescanned.
(For an empty pattern Go splices the replacement between characters; the
embedded call sites only use the nonempty placeholder patterns, so that
case is unreachable here.) -/
def replaceAllAux (pat repl : List Char) : Nat → List Char → List Char
  | 0, s => s
  | _ + 1, [] => []
  | fuel + 1, c :: rest =>
    if pat.isPrefixOf (c :: rest) then
      repl ++ replaceAllAux pat repl fuel ((c :: rest).drop pat.length)
    else
      c :: replaceAllAux pat repl fuel rest

/-- Wrapper fixing the fuel: a nonempty pattern consumes at least one
character per step, so `s.length` steps always suffice. -/
def replaceAll (pat repl : List Char) (s : List Char) : List Char :=
  if pat = [] then s else replaceAllAux pat repl s.length s

namespace image

/-- The pattern `"sha256:"` searched for by `ExtractDigest`. -/
def sha256Pat : List Char := "sha256:".data

/-- The scan loop of `ExtractDigest` (pkg/image, `for i := 0; i <
len(imageID)-7; i++`): returns the suffix of `imageID` starting at the
first occurrence of `"sha256:"` that is checked by the loop.  The loop
guard `i < len(imageID)-7` only inspects positions strictly before
`len-7`, i.e. positions whose match is followed by at least one further
character; at a position the remaining suffix then has length `> 7`. -/
def findSha : List Char → Option (List Char)
  | [] => none
  | c :: rest =>
    if sha256Pat.isPrefixOf (c :: rest) ∧ (c :: rest).length > 7 then
      some (c :: rest)
    else findSha rest

/-- The inner loop of `ExtractDigest`: cut the remaining string just
before the first `'@'` or `' '` (Go computes `end` and takes
`remaining[:end]`). -/
def takeUntilSep : List Char → List Char
  | [] => []
  | c :: rest => if c = '@' ∨ c = ' ' then [] else c :: takeUntilSep rest

/-- `image.ExtractDigest` (pkg/image): extract the digest from an
ImageID.  Mirrors the Go source: empty input short-circuits; the scan
loop (`findSha`) looks for `"sha256:"` at positions `i < len-7`; on a
hit, everything from the hit up to the next `'@'` or `' '` (or the end)
is returned; otherwise the input is returned unchanged. -/
def ExtractDigest (imageID : List Char) : List Char :=
  if imageID = [] then []
  else
    match findSha imageID with
    | some remaining => takeUntilSep remaining
    | none => imageID

/-- `image.ExtractName` (pkg/image): split a container image reference
into (name, tag).  Mirrors the Go source: strip everything from the
first `'@'`; then extract a trailing `:tag` only when the last `':'`
comes strictly after the last `'/'` (Go compares the two `-1`-valued
indices; `none` plays `-1`). -/
def ExtractName (img : List Char) : List Char × List Char :=
  if img = [] then ([], [])
  else
    let img := match indexOfChar '@' img with
      | some i => img.take i
      | none => img
    let lastSlash : Int := match lastIndexOfChar '/' img with
      | some i => (i : Int)
      | none => -1
    let tagStart : Int := match lastIndexOfChar ':' img with
      | some i => (i : Int)
      | none => -1
    if tagStart > lastSlash then
      match lastIndexOfChar ':' img with
      | some i => (img.take i, img.drop (i + 1))
      | none => (img, [])
    else (img, [])

end image

example : image.ExtractDigest "docker-pullable://nginx@sha256:abc123def456".data = "sha256:abc123def456".data := by decide
example : image.ExtractDigest "sha256:abc123@extra".data = "sha256:abc123".data := by decide
example : image.ExtractDigest "docker://sha256:abc123 extra".data = "sha256:abc123".data := by decide
example : image.ExtractDigest "".data = "".data := by decide
example : image.ExtractDigest "some-random-id-without-sha".data = "some-random-id-without-sha".data := by decide
example : image.ExtractDigest "xsha256:".data = "xsha256:".data := by decide
example : image.ExtractDigest "sha256:".data = "sha256:".data := by decide
example : image.ExtractName "nginx:1.21".data = ("nginx".data, "1.21".data) := by decide
example : image.ExtractName "nginx@sha256:abc123".data = ("nginx".data, "".data) := by decide
example : image.ExtractName "localhost:5000/myapp".data = ("localhost:5000/myapp".data, "".data) := by decide
example : image.ExtractName "localhost:5000/myapp:v1.0".data = ("localhost:5000/myapp".data, "v1.0".data) := by decide
example : image.ExtractName "".data = ("".data, "".data) := by decide

namespace deploymentrecord

/-- `StatusDeployed` (pkg/deploymentrecord). -/
def StatusDeployed : List Char := "deployed".data

/-- `StatusDecommissioned` (pkg/deploymentrecord). -/
def StatusDecommissioned : List Char := "decommissioned".data

/-- `DeploymentRecord` (pkg/deploymentrecord): one deployment event
record.  Field names follow the Go struct. -/
structure DeploymentRecord where
  name : List Char
  digest : List Char
  version : List Char
  logicalEnvironment : List Char
  physicalEnvironment : List Char
  cluster : List Char
  status : List Char
  deploymentName : List Char
deriving DecidableEq, Repr

/-- `NewDeploymentRecord` (pkg/deploymentrecord): builds a record from
its arguments; a status other than `StatusDeployed` or
`StatusDecommissioned` is silently replaced by `StatusDeployed`. -/
def NewDeploymentRecord (name digest version logicalEnv physicalEnv
    cluster status deploymentName : List Char) : DeploymentRecord :=
  let status :=
    if status ≠ StatusDeployed ∧ status ≠ StatusDecommissioned then
      StatusDeployed
    else status
  { name := name
    digest := digest
    version := version
    logicalEnvironment := logicalEnv
    physicalEnvironment := physicalEnv
    cluster := cluster
    status := status
    deploymentName := deploymentName }

/-- Character class of the Go regexp `^[a-zA-Z0-9_-]+$`
(`validOrgPattern`, pkg/deploymentrecord). -/
def isOrgChar (c : Char) : Bool :=
  ('a' ≤ c ∧ c ≤ 'z') ∨ ('A' ≤ c ∧ c ≤ 'Z') ∨ ('0' ≤ c ∧ c ≤ '9') ∨
    c = '_' ∨ c = '-'

/-- `validOrgPattern.MatchString` (pkg/deploymentrecord): the anchored
regexp `^[a-zA-Z0-9_-]+$` matches exactly the nonempty strings made of
ASCII letters, digits, `'_'` and `'-'`. -/
def validOrg (org : List Char) : Bool :=
  !(org == []) && org.all isOrgChar

/-- The `isLocal` test in `NewClient` (pkg/deploymentrecord): a base URL
counts as local when it starts with `"http://localhost"` or
`"http://127.0.0.1"`, or contains `".svc.cluster.local"` anywhere. -/
def isLocalURL (baseURL : List Char) : Bool :=
  "http://localhost".data.isPrefixOf baseURL ||
  "http://127.0.0.1".data.isPrefixOf baseURL ||
  containsSeq ".svc.cluster.local".data baseURL

/-- `NewClient` (pkg/deploymentrecord), restricted to its validation and
URL normalisation: reject `http://` base URLs for non-local hosts,
prepend `https://` when no scheme is given, reject organizations not
matching `validOrgPattern`.  On success it returns the stored
`(baseURL, org)` pair; the HTTP client, retry count and rate limiter the
Go code also sets carry no information for the claims. -/
def NewClient (baseURL org : List Char) : Except (List Char) (List Char × List Char) :=
  let isLocal := isLocalURL baseURL
  if "http://".data.isPrefixOf baseURL ∧ ¬ isLocal then
    .error "insecure URL not allowed".data
  else
    let baseURL :=
      if ¬ "https://".data.isPrefixOf baseURL ∧ ¬ "http://".data.isPrefixOf baseURL then
        "https://".data ++ baseURL
      else baseURL
    if ¬ validOrg org then
      .error "invalid organization name".data
    else
      .ok (baseURL, org)

/-- Outcome of one HTTP attempt inside `PostOne`: either
`httpClient.Do` fails (a network error) or a response with some status
code arrives. -/
inductive HTTPResp where
  | netErr
  | status (code : Nat)
deriving DecidableEq, Repr

/-- The `lastErr` values `PostOne` can record: a failed POST request or
an unexpected status code. -/
inductive PostErr where
  | reqFailed
  | badStatus (code : Nat)
deriving DecidableEq, Repr

/-- Classified result of the `PostOne` attempt loop: `nil` after a 2xx
response, `*ClientError` after a non-429 4xx response, or the final
"all retries exhausted" error wrapping the last observed error. -/
inductive PostOutcome where
  | success
  | clientError (code : Nat)
  | hardFail (last : Option PostErr)
deriving DecidableEq, Repr

/-- Observable trace of one `PostOne` call: the classified outcome, the
number of HTTP attempts issued, and the list of computed backoff delays
(as `int64` nanosecond `time.Duration` values, in order; a
non-positive entry means the wait fires immediately). -/
structure PostRun where
  outcome : PostOutcome
  calls : Nat
  delays : List Int
deriving DecidableEq, Repr

/-- The 2xx test of `PostOne` (`resp.StatusCode >= 200 && resp.StatusCode < 300`). -/
def is2xx (code : Nat) : Bool := 200 ≤ code ∧ code < 300

/-- The permanent client-error test of `PostOne`
(`resp.StatusCode >= 400 && resp.StatusCode < 500 && resp.StatusCode != 429`). -/
def isPermanent4xx (code : Nat) : Bool := 400 ≤ code ∧ code < 500 ∧ code ≠ 429

/-- Two's-complement wrap into the `int64` range: Go's fixed-width
integer arithmetic reduces every result modulo `2^64` into
`[-2^63, 2^63)`. -/
def wrap64 (x : Int) : Int := (x + 2 ^ 63) % 2 ^ 64 - 2 ^ 63

/-- The backoff delay computed before attempt `k > 0` with jitter draw
`j` (in milliseconds), as the `int64` nanosecond value of Go's
`time.Duration`: `time.Duration(math.Pow(2, attempt)) * 100 *
time.Millisecond` — the float64 power and its `Duration` cast are exact
for `k ≤ 62`, which is the regime this embedding covers, and each
`int64` multiplication wraps — plus `jitter * time.Millisecond` (in
range for `j < 50`), the sum wrapping again; finally replaced by
`5 * time.Second` when above it.  A wrapped-negative delay is below the
cap, is kept, and makes the `time.After` wait fire immediately: no
sleep happens. -/
def delayNs (k j : Nat) : Int :=
  let backoff := wrap64 (wrap64 ((2 : Int) ^ k * 100) * 1000000)
  let jitter : Int := (j : Int) * 1000000
  let delay := wrap64 (backoff + jitter)
  if delay > 5000000000 then 5000000000 else delay

/-- The retry loop of `PostOne` (pkg/deploymentrecord, `for attempt :=
range c.retries + 1`).  `resp k` is the outcome of the HTTP attempt with
index `k`, `jit k` the jitter (in ms) drawn before attempt `k`, `n` the
number of loop iterations still allowed, `last` the `lastErr` recorded
so far.  Before every attempt with index `k > 0` a backoff sleep of
`delayNs k (jit k)` is performed.  A 2xx response returns success; a
non-429 4xx response returns `clientError` at once; everything else
records `lastErr` and continues; an exhausted loop returns `hardFail`
wrapping the last recorded error.  (Context cancellation, request
construction and token fetching are assumed not to fail, as the claims
quantify over HTTP outcomes only.) -/
def postAttempts (resp : Nat → HTTPResp) (jit : Nat → Nat) :
    Nat → Nat → Option PostErr → PostRun
  | _, 0, last => ⟨.hardFail last, 0, []⟩
  | k, n + 1, _last =>
    let ds := if 0 < k then [delayNs k (jit k)] else []
    match resp k with
    | .netErr =>
      let r := postAttempts resp jit (k + 1) n (some .reqFailed)
      ⟨r.outcome, r.calls + 1, ds ++ r.delays⟩
    | .status code =>
      if is2xx code then ⟨.success, 1, ds⟩
      else if isPermanent4xx code then ⟨.clientError code, 1, ds⟩
      else
        let r := postAttempts resp jit (k + 1) n (some (.badStatus code))
        ⟨r.outcome, r.calls + 1, ds ++ r.delays⟩

/-- `PostOne` (pkg/deploymentrecord), from the top of its attempt loop:
up to `retries + 1` total attempts starting at attempt index 0 with no
error recorded yet. -/
def PostOne (resp : Nat → HTTPResp) (jit : Nat → Nat) (retries : Nat) : PostRun :=
  postAttempts resp jit 0 (retries + 1) none

/-- Retryable attempt outcomes (`continue` cases of the loop): network
errors and any status that is neither 2xx nor a non-429 4xx. -/
def isSoft : HTTPResp → Bool
  | .netErr => true
  | .status code => !is2xx code && !isPermanent4xx code

/-- The `lastErr` value an attempt outcome leaves behind when it does
not terminate the loop. -/
def errOf : HTTPResp → PostErr
  | .netErr => .reqFailed
  | .status code => .badStatus code

end deploymentrecord

section sanityChecks
open deploymentrecord
example : (PostOne (fun _ => .status 404) (fun _ => 0) 3) = ⟨.clientError 404, 1, []⟩ := by decide
example : (PostOne (fun _ => .status 500) (fun _ => 7) 1) =
    ⟨.hardFail (some (.badStatus 500)), 2, [delayNs 1 7]⟩ := by decide
example : (PostOne (fun k => if k < 3 then .status 500 else .status 200) (fun _ => 0) 3) =
    ⟨.success, 4, [200000000, 400000000, 800000000]⟩ := by decide
example : (NewClient "http://example.com".data "my-org".data).isOk = false := by decide
example : (NewClient "http://localhost:8080".data "my-org".data).isOk = true := by decide
example : (NewClient "api.github.com".data "my-org".data).toOption = some ("https://api.github.com".data, "my-org".data) := by decide
example : validOrg "my org".data = false := by decide
example : validOrg "MyOrg123-_".data = true := by decide
end sanityChecks

namespace controller

/-- `EventCreated` (controller). -/
def EventCreated : List Char := "CREATED".data

/-- `EventDeleted` (controller). -/
def EventDeleted : List Char := "DELETED".data

/-- `PodEvent` (controller): the work-queue item type, generic in the
representation `π` of the `*corev1.Pod` pointer field.  The typed work
queue compares items with Go `==`, which for this struct compares all
three fields; the pointer field is compared by pointer identity, so for
queue-equality questions `π` is instantiated with `Nat` (an address),
while the reconciler receives the dereferenced pod content. -/
structure PodEvent (π : Type) where
  key : List Char
  eventType : List Char
  deletedPod : Option π
deriving DecidableEq, Repr

/-- Go `==` on `PodEvent` values: field-wise equality, including the
`DeletedPod` pointer field. -/
def podEventEq (a b : PodEvent Nat) : Bool :=
  a.key == b.key && a.eventType == b.eventType && a.deletedPod == b.deletedPod

/-- `metav1.OwnerReference`, restricted to the fields the controller
reads. -/
structure OwnerRef where
  kind : List Char
  name : List Char
deriving DecidableEq, Repr

/-- `corev1.Container`, restricted to the fields the controller reads. -/
structure Container where
  name : List Char
  image : List Char
deriving DecidableEq, Repr

/-- `corev1.ContainerStatus`, restricted to the fields the controller
reads. -/
structure ContainerStatus where
  name : List Char
  imageID : List Char
deriving DecidableEq, Repr

/-- `corev1.Pod`, restricted to the fields the controller reads.  `ns`
stands for the pod's namespace (a Lean keyword). -/
structure Pod where
  ns : List Char
  name : List Char
  ownerReferences : List OwnerRef
  containers : List Container
  initContainers : List Container
  containerStatuses : List ContainerStatus
  initContainerStatuses : List ContainerStatus
deriving DecidableEq, Repr

/-- `Config` (controller, from the `config.go` listing bundled in
src/README.md): the controller's global configuration, restricted to the
four fields the reconciler reads (`Template`, `LogicalEnvironment`,
`PhysicalEnvironment`, `Cluster`); the remaining fields (API token,
base URL, GitHub-app credentials, organization) are consumed only at
client construction and carry no information for the claims. -/
structure Config where
  template : List Char
  logicalEnvironment : List Char
  physicalEnvironment : List Char
  cluster : List Char
deriving DecidableEq, Repr

/-- `TmplNS` (controller, from the `config.go` listing bundled in
src/README.md): the namespace placeholder, the exact token
`{{namespace}}`. -/
def TmplNS : List Char := "\x7b\x7bnamespace\x7d\x7d".data

/-- `TmplDN` (controller, from the `config.go` listing bundled in
src/README.md): the deployment-name placeholder, the exact token
`{{deploymentName}}`. -/
def TmplDN : List Char := "\x7b\x7bdeploymentName\x7d\x7d".data

/-- `TmplCN` (controller, from the `config.go` listing bundled in
src/README.md): the container-name placeholder, the exact token
`{{containerName}}`. -/
def TmplCN : List Char := "\x7b\x7bcontainerName\x7d\x7d".data

/-- `getDeploymentName` (controller): the logical deployment name of a
pod, recovered from its first `ReplicaSet` owner reference by stripping
the suffix from the last `'-'` on, provided that `'-'` is not the first
character (`lastDash > 0`); a pod without a `ReplicaSet` owner yields
the empty string. -/
def getDeploymentName (pod : Pod) : List Char :=
  match pod.ownerReferences.find? (fun o => o.kind == "ReplicaSet".data) with
  | some owner =>
    let rsName := owner.name
    match lastIndexOfChar '-' rsName with
    | some lastDash => if lastDash > 0 then rsName.take lastDash else rsName
    | none => rsName
  | none => []

/-- `getARDeploymentName` (controller): substitute the three placeholder
tokens into the configured template, namespace first, then deployment
name, then container name. -/
def getARDeploymentName (p : Pod) (c : Container) (tmpl : List Char) : List Char :=
  replaceAll TmplCN c.name
    (replaceAll TmplDN (getDeploymentName p)
      (replaceAll TmplNS p.ns tmpl))

/-- `getContainerDigest` (controller): find the container's status entry
by name, regular container statuses first, then init-container statuses,
and extract the digest from its ImageID; no status entry yields the
empty string. -/
def getContainerDigest (pod : Pod) (containerName : List Char) : List Char :=
  match pod.containerStatuses.find? (fun s => s.name == containerName) with
  | some st => image.ExtractDigest st.imageID
  | none =>
    match pod.initContainerStatuses.find? (fun s => s.name == containerName) with
    | some st => image.ExtractDigest st.imageID
    | none => []

/-- `getCacheKey` (controller): the dedup-cache key
`deploymentName || digest`. -/
def getCacheKey (dn digest : List Char) : List Char :=
  dn ++ "||".data ++ digest

/-- The dedup cache `observedDeployments` (a `sync.Map` used as a set of
keys), modelled by its set of present keys. -/
abbrev Cache : Type := List (List Char)

/-- `observedDeployments.Store(cacheKey, true)`: afterwards the key is
present; other keys are untouched. -/
def storeKey (k : List Char) (c : Cache) : Cache :=
  if k ∈ c then c else k :: c

/-- `observedDeployments.Delete(cacheKey)`: afterwards the key is
absent; other keys are untouched. -/
def deleteKey (k : List Char) (c : Cache) : Cache :=
  List.filter (fun x => x != k) c

/-- Classification of one `c.apiClient.PostOne` call as seen by
`recordContainer`: success (`nil`), an error unwrapping to
`*deploymentrecord.ClientError`, or any other (retryable) delivery
error, carrying an identifying payload. -/
inductive Delivery where
  | ok
  | clientErr
  | failed (e : List Char)
deriving DecidableEq, Repr

/-- The error value `recordContainer` can return: the delivery error
passed through from `PostOne`, or the `invalid status` error of the two
`default:` switch branches. -/
inductive RCErr where
  | deliveryErr (e : List Char)
  | invalidStatus (st : List Char)
deriving DecidableEq, Repr

/-- Observable result of one `recordContainer` call: the dedup cache
afterwards, whether `PostOne` was invoked, the record posted (when it
was), and the returned error (`none` is Go `nil`). -/
structure RCOut where
  cache : Cache
  posted : Bool
  record : Option deploymentrecord.DeploymentRecord
  ret : Option RCErr
deriving DecidableEq, Repr

/-- The body of `recordContainer` (controller) from the emptiness check
on, with the deployment name `dn` and `digest` already derived (the Go
function computes them on its first two lines and never reuses the pod
afterwards except through them; `img` is `container.Image`).  Structure
mirrors the source: skip on empty name or digest; the idempotency-gate
switch on `status` (deployed: skip when the key is cached;
decommissioned: skip when it is not; other: `invalid status` error);
build the record from `ExtractName` and `NewDeploymentRecord`; call
`PostOne` (outcome `delivery`); on `ClientError` log and return `nil`;
on any other error return it; on success update the cache (deployed:
`Store`; decommissioned: `Delete`) and return `nil`. -/
def recordContainerCore (cfg : Config) (cache : Cache)
    (dn digest img status : List Char) (delivery : Delivery) : RCOut :=
  if dn = [] ∨ digest = [] then ⟨cache, false, none, none⟩
  else
    let cacheKey := getCacheKey dn digest
    if status = deploymentrecord.StatusDeployed ∧ cacheKey ∈ cache then
      ⟨cache, false, none, none⟩
    else if status = deploymentrecord.StatusDecommissioned ∧ cacheKey ∉ cache then
      ⟨cache, false, none, none⟩
    else if status ≠ deploymentrecord.StatusDeployed ∧ status ≠ deploymentrecord.StatusDecommissioned then
      ⟨cache, false, none, some (.invalidStatus status)⟩
    else
      let nameTag := image.ExtractName img
      let record := deploymentrecord.NewDeploymentRecord nameTag.1 digest nameTag.2
        cfg.logicalEnvironment cfg.physicalEnvironment cfg.cluster status dn
      match delivery with
      | .clientErr => ⟨cache, true, some record, none⟩
      | .failed e => ⟨cache, true, some record, some (.deliveryErr e)⟩
      | .ok =>
        if status = deploymentrecord.StatusDeployed then
          ⟨storeKey cacheKey cache, true, some record, none⟩
        else if status = deploymentrecord.StatusDecommissioned then
          ⟨deleteKey cacheKey cache, true, some record, none⟩
        else
          ⟨cache, true, some record, some (.invalidStatus status)⟩

/-- `recordContainer` (controller): derive the reported deployment name
and the digest, then run the body. -/
def recordContainer (cfg : Config) (cache : Cache) (pod : Pod)
    (container : Container) (status : List Char) (delivery : Delivery) : RCOut :=
  recordContainerCore cfg cache
    (getARDeploymentName pod container cfg.template)
    (getContainerDigest pod container.name)
    container.image status delivery

end controller

namespace controller

/-- Outcome of the existence probe
`c.clientset.AppsV1().Deployments(ns).Get(...)` inside
`deploymentExists`: success, a not-found error, or any other error. -/
inductive ProbeResult where
  | found
  | notFound
  | transientError
deriving DecidableEq, Repr

/-- `deploymentExists` (controller): `false` exactly on a not-found
error; any other error is treated as "assume it exists" to avoid false
decommissions; success means it exists. -/
def deploymentExists : ProbeResult → Bool
  | .found => true
  | .notFound => false
  | .transientError => true

/-- Outcome of the informer-cache lookup
`c.podInformer.GetIndexer().GetByKey(event.Key)` plus the type
assertion, as read by the `Created` branch of `processEvent`. -/
inductive CacheLookup where
  | lookupErr
  | absent
  | invalidType
  | found (pod : Pod)
deriving DecidableEq, Repr

/-- The container loop of `processEvent`: run `recordContainer` for each
container in order, threading the dedup cache, and collect each call's
result.  `deliveries i` is the `PostOne` outcome the i-th call would
observe. -/
def runContainers (cfg : Config) (cache : Cache) (pod : Pod) (status : List Char) :
    List (Container × Delivery) → Cache × List RCOut
  | [] => (cache, [])
  | (container, d) :: rest =>
    let r := recordContainer cfg cache pod container status d
    let out := runContainers cfg r.cache pod status rest
    (out.1, r :: out.2)

/-- The `lastErr` aggregation of `processEvent`: `lastErr` starts as
`nil` and is overwritten by each non-`nil` `recordContainer` result. -/
def lastErrOf (results : List RCOut) : Option RCErr :=
  results.foldl (fun acc r => if r.ret.isSome then r.ret else acc) none

/-- Observable result of one `processEvent` call: the dedup cache
afterwards, the returned error (`none` is `nil`), and the
`recordContainer` results for the processed containers in order (empty
when no container loop ran). -/
structure PEOut where
  cache : Cache
  err : Option RCErr
  results : List RCOut
deriving DecidableEq, Repr

/-- `processEvent` (controller).  For a `DELETED` event: use the
captured pod (`nil` pod: log and return `nil`); when the pod maps to a
deployment name and the deployment still exists, treat as a scale-down
and return `nil`.  For other events: read the pod from the informer
cache (lookup error, missing pod, or failed type assertion all return
`nil`).  Then choose the status (`decommissioned` for `DELETED`,
`deployed` otherwise) and run `recordContainer` over
`pod.Spec.Containers` followed by `pod.Spec.InitContainers`, returning
the last non-`nil` per-container error.  `deliveries i` is the `PostOne`
outcome observed by the i-th `recordContainer` call that posts;
`probe` is the outcome of the existence probe. -/
def processEvent (cfg : Config) (cache : Cache) (eventType : List Char)
    (deletedPod : Option Pod) (lookup : CacheLookup) (probe : ProbeResult)
    (deliveries : Nat → Delivery) : PEOut :=
  let run (pod : Pod) : PEOut :=
    let status :=
      if eventType = EventDeleted then deploymentrecord.StatusDecommissioned
      else deploymentrecord.StatusDeployed
    let steps := (pod.containers ++ pod.initContainers).enum.map
      (fun p => (p.2, deliveries p.1))
    let out := runContainers cfg cache pod status steps
    ⟨out.1, lastErrOf out.2, out.2⟩
  if eventType = EventDeleted then
    match deletedPod with
    | none => ⟨cache, none, []⟩
    | some pod =>
      let deploymentName := getDeploymentName pod
      if deploymentName ≠ [] ∧ deploymentExists probe then ⟨cache, none, []⟩
      else run pod
  else
    match lookup with
    | .lookupErr => ⟨cache, none, []⟩
    | .absent => ⟨cache, none, []⟩
    | .invalidType => ⟨cache, none, []⟩
    | .found pod => run pod

/-- A fixed-identity run of `recordContainer`'s body: process the given
list of statuses for one (deployment name, digest) identity, every
delivery succeeding, and count the POSTs issued.  This packages the
sequences of the idempotence property. -/
def runStatuses (cfg : Config) (img dn digest : List Char) (cache : Cache) :
    List (List Char) → Cache × Nat
  | [] => (cache, 0)
  | st :: rest =>
    let r := recordContainerCore cfg cache dn digest img st .ok
    let out := runStatuses cfg img dn digest r.cache rest
    (out.1, (if r.posted then 1 else 0) + out.2)

/-- One step of an arbitrary interleaved sequence of `recordContainer`
body executions: an identity, a requested status, and the delivery
outcome `PostOne` would produce for it. -/
structure Step where
  dn : List Char
  digest : List Char
  img : List Char
  status : List Char
  delivery : Delivery
deriving DecidableEq, Repr

/-- Run a sequence of `recordContainer` body executions, threading the
dedup cache, and log every successful delivery as a
(cache key, status) pair in order. -/
def runTrace (cfg : Config) (cache : Cache) :
    List Step → Cache × List (List Char × List Char)
  | [] => (cache, [])
  | s :: rest =>
    let r := recordContainerCore cfg cache s.dn s.digest s.img s.status s.delivery
    let entry :=
      if r.posted ∧ s.delivery = .ok then [(getCacheKey s.dn s.digest, s.status)] else []
    let out := runTrace cfg r.cache rest
    (out.1, entry ++ out.2)

/-- The status of the last successful delivery logged for cache key `k`
(`none` when no successful delivery for `k` occurred). -/
def lastDeliveredStatus (k : List Char) (log : List (List Char × List Char)) :
    Option (List Char) :=
  ((log.filter (fun p => p.1 == k)).map Prod.snd).getLast?

end controller

namespace controller

/-- A concrete configuration used by the witness instantiations: the
default template `{{namespace}}/{{deploymentName}}/{{containerName}}`
and arbitrary environment labels. -/
def sampleConfig : Config := ⟨"\x7b\x7bnamespace\x7d\x7d/\x7b\x7bdeploymentName\x7d\x7d/\x7b\x7bcontainerName\x7d\x7d".data, "env".data, "phys".data, "cl".data⟩

/-- A concrete pod used by the witness instantiations: workload `web` in
namespace `prod`, owned through the generated ReplicaSet name
`web-7f9c9b6d8`, with one running container `app`. -/
def samplePod : Pod :=
  ⟨"prod".data, "web-7f9c9b6d8-abcde".data,
   [⟨"ReplicaSet".data, "web-7f9c9b6d8".data⟩],
   [⟨"app".data, "nginx:1.21".data⟩], [],
   [⟨"app".data, "docker-pullable://nginx@sha256:aaaa".data⟩], []⟩

end controller

section sanityChecksController
open controller deploymentrecord

example : getDeploymentName samplePod = "web".data := by decide
example : getARDeploymentName samplePod ⟨"app".data, "nginx:1.21".data⟩ sampleConfig.template = "prod/web/app".data := by decide
example : getContainerDigest samplePod "app".data = "sha256:aaaa".data := by decide

example : (runStatuses sampleConfig "nginx".data "d".data "g".data []
    [StatusDeployed, StatusDeployed]).2 = 1 := by decide
example : (runStatuses sampleConfig "nginx".data "d".data "g".data []
    [StatusDecommissioned]).2 = 0 := by decide
example : (runStatuses sampleConfig "nginx".data "d".data "g".data []
    [StatusDeployed, StatusDecommissioned, StatusDeployed]).2 = 3 := by decide

example : (processEvent sampleConfig [] EventDeleted (some samplePod) .lookupErr .found (fun _ => .ok))
    = ⟨[], none, []⟩ := by decide
example : (processEvent sampleConfig [] EventDeleted (some samplePod) .lookupErr .notFound (fun _ => .ok)).err = none := by decide
example : (processEvent sampleConfig [] EventDeleted (some samplePod) .lookupErr .notFound (fun _ => .ok)).results.length = 1 := by decide
example : (processEvent sampleConfig ["prod/web/app||sha256:aaaa".data] EventDeleted (some samplePod) .lookupErr .notFound (fun _ => .failed "boom".data)).err
    = some (.deliveryErr "boom".data) := by decide
example : (processEvent sampleConfig [] EventCreated none (.found samplePod) .found (fun _ => .ok)).cache
    = ["prod/web/app||sha256:aaaa".data] := by decide
end sanityChecksController

namespace controller

theorem mem_storeKey {k k' : List Char} {c : Cache} :
    k' ∈ storeKey k c ↔ k' = k ∨ k' ∈ c := by
  unfold storeKey
  split
  · rename_i hin
    constructor
    · exact fun h => Or.inr h
    · rintro (rfl | h)
      · exact hin
      · exact h
  · simp [List.mem_cons]

theorem mem_deleteKey {k k' : List Char} {c : Cache} :
    k' ∈ deleteKey k c ↔ k' ∈ c ∧ k' ≠ k := by
  unfold deleteKey
  simp [List.mem_filter, bne_iff_ne]

theorem statusDeployed_ne_decommissioned :
    deploymentrecord.StatusDeployed ≠ deploymentrecord.StatusDecommissioned := by decide

/-- Shorthand for the record `recordContainer` builds and posts. -/
def builtRecord (cfg : Config) (dn digest img status : List Char) :
    deploymentrecord.DeploymentRecord :=
  deploymentrecord.NewDeploymentRecord (image.ExtractName img).1 digest
    (image.ExtractName img).2 cfg.logicalEnvironment cfg.physicalEnvironment
    cfg.cluster status dn

theorem core_skip_empty (cfg : Config) (cache : Cache) (dn digest img status : List Char)
    (d : Delivery) (h : dn = [] ∨ digest = []) :
    recordContainerCore cfg cache dn digest img status d = ⟨cache, false, none, none⟩ := by
  unfold recordContainerCore
  rw [if_pos h]

theorem core_deployed_skip (cfg : Config) (cache : Cache) (dn digest img : List Char)
    (d : Delivery) (h : ¬(dn = [] ∨ digest = []))
    (hin : getCacheKey dn digest ∈ cache) :
    recordContainerCore cfg cache dn digest img deploymentrecord.StatusDeployed d =
      ⟨cache, false, none, none⟩ := by
  unfold recordContainerCore
  rw [if_neg h, if_pos ⟨rfl, hin⟩]

theorem core_decommissioned_skip (cfg : Config) (cache : Cache) (dn digest img : List Char)
    (d : Delivery) (h : ¬(dn = [] ∨ digest = []))
    (hout : getCacheKey dn digest ∉ cache) :
    recordContainerCore cfg cache dn digest img deploymentrecord.StatusDecommissioned d =
      ⟨cache, false, none, none⟩ := by
  unfold recordContainerCore
  rw [if_neg h, if_neg (fun hc => statusDeployed_ne_decommissioned hc.1.symm),
    if_pos ⟨rfl, hout⟩]

theorem core_invalid_status (cfg : Config) (cache : Cache) (dn digest img status : List Char)
    (d : Delivery) (h : ¬(dn = [] ∨ digest = []))
    (hs : status ≠ deploymentrecord.StatusDeployed ∧
      status ≠ deploymentrecord.StatusDecommissioned) :
    recordContainerCore cfg cache dn digest img status d =
      ⟨cache, false, none, some (.invalidStatus status)⟩ := by
  unfold recordContainerCore
  rw [if_neg h, if_neg (fun hc => hs.1 hc.1), if_neg (fun hc => hs.2 hc.1), if_pos hs]

theorem core_deployed_post (cfg : Config) (cache : Cache) (dn digest img : List Char)
    (d : Delivery) (h : ¬(dn = [] ∨ digest = []))
    (hout : getCacheKey dn digest ∉ cache) :
    recordContainerCore cfg cache dn digest img deploymentrecord.StatusDeployed d =
      match d with
      | .clientErr => ⟨cache, true,
          some (builtRecord cfg dn digest img deploymentrecord.StatusDeployed), none⟩
      | .failed e => ⟨cache, true,
          some (builtRecord cfg dn digest img deploymentrecord.StatusDeployed),
          some (.deliveryErr e)⟩
      | .ok => ⟨storeKey (getCacheKey dn digest) cache, true,
          some (builtRecord cfg dn digest img deploymentrecord.StatusDeployed), none⟩ := by
  unfold recordContainerCore
  rw [if_neg h, if_neg (fun hc => hout hc.2),
    if_neg (fun hc => statusDeployed_ne_decommissioned hc.1),
    if_neg (fun hc => hc.1 rfl)]
  cases d <;> simp [builtRecord]

theorem core_decommissioned_post (cfg : Config) (cache : Cache) (dn digest img : List Char)
    (d : Delivery) (h : ¬(dn = [] ∨ digest = []))
    (hin : getCacheKey dn digest ∈ cache) :
    recordContainerCore cfg cache dn digest img deploymentrecord.StatusDecommissioned d =
      match d with
      | .clientErr => ⟨cache, true,
          some (builtRecord cfg dn digest img deploymentrecord.StatusDecommissioned), none⟩
      | .failed e => ⟨cache, true,
          some (builtRecord cfg dn digest img deploymentrecord.StatusDecommissioned),
          some (.deliveryErr e)⟩
      | .ok => ⟨deleteKey (getCacheKey dn digest) cache, true,
          some (builtRecord cfg dn digest img deploymentrecord.StatusDecommissioned), none⟩ := by
  have hne : ¬(deploymentrecord.StatusDecommissioned = deploymentrecord.StatusDeployed) :=
    fun hc => statusDeployed_ne_decommissioned hc.symm
  unfold recordContainerCore
  rw [if_neg h, if_neg (fun hc => hne hc.1), if_neg (fun hc => hc.2 hin),
    if_neg (fun hc => hc.2 rfl)]
  cases d <;> simp [builtRecord, hne]

end controller

namespace deploymentrecord

theorem postAttempts_soft (resp : Nat → HTTPResp) (jit : Nat → Nat) (k n : Nat)
    (last : Option PostErr) (h : isSoft (resp k) = true) :
    postAttempts resp jit k (n + 1) last =
      ⟨(postAttempts resp jit (k + 1) n (some (errOf (resp k)))).outcome,
       (postAttempts resp jit (k + 1) n (some (errOf (resp k)))).calls + 1,
       (if 0 < k then [delayNs k (jit k)] else []) ++
         (postAttempts resp jit (k + 1) n (some (errOf (resp k)))).delays⟩ := by
  cases hr : resp k with
  | netErr => simp [postAttempts, hr, errOf]
  | status code =>
    have h' : is2xx code = false ∧ isPermanent4xx code = false := by
      rw [hr] at h
      simp [isSoft] at h
      exact h
    simp [postAttempts, hr, errOf, h'.1, h'.2]

theorem postAttempts_2xx (resp : Nat → HTTPResp) (jit : Nat → Nat) (k n : Nat)
    (last : Option PostErr) (code : Nat) (hr : resp k = .status code)
    (h : is2xx code = true) :
    postAttempts resp jit k (n + 1) last =
      ⟨.success, 1, if 0 < k then [delayNs k (jit k)] else []⟩ := by
  simp [postAttempts, hr, h]

theorem postAttempts_perm4xx (resp : Nat → HTTPResp) (jit : Nat → Nat) (k n : Nat)
    (last : Option PostErr) (code : Nat) (hr : resp k = .status code)
    (h : isPermanent4xx code = true) :
    postAttempts resp jit k (n + 1) last =
      ⟨.clientError code, 1, if 0 < k then [delayNs k (jit k)] else []⟩ := by
  have h2 : is2xx code = false := by
    simp [isPermanent4xx] at h
    simp [is2xx]
    omega
  simp [postAttempts, hr, h, h2]

theorem postAttempts_calls_le (resp : Nat → HTTPResp) (jit : Nat → Nat) :
    ∀ n k last, (postAttempts resp jit k n last).calls ≤ n := by
  intro n
  induction n with
  | zero => intro k last; simp [postAttempts]
  | succ n ih =>
    intro k last
    cases hr : resp k with
    | netErr =>
      simp only [postAttempts, hr]
      exact Nat.succ_le_succ (ih (k + 1) _)
    | status code =>
      cases h2 : is2xx code with
      | true =>
        rw [postAttempts_2xx resp jit k n last code hr h2]
        exact Nat.succ_le_succ (Nat.zero_le n)
      | false =>
        cases h4 : isPermanent4xx code with
        | true =>
          rw [postAttempts_perm4xx resp jit k n last code hr h4]
          exact Nat.succ_le_succ (Nat.zero_le n)
        | false =>
          have hs : isSoft (resp k) = true := by simp [isSoft, hr, h2, h4]
          rw [postAttempts_soft resp jit k n last hs]
          exact Nat.succ_le_succ (ih (k + 1) _)

theorem postAttempts_first_2xx (resp : Nat → HTTPResp) (jit : Nat → Nat) :
    ∀ j k n last code, (∀ i, k ≤ i → i < k + j → isSoft (resp i) = true) →
      resp (k + j) = .status code → is2xx code = true → j < n →
      (postAttempts resp jit k n last).outcome = .success ∧
        (postAttempts resp jit k n last).calls = j + 1 := by
  intro j
  induction j with
  | zero =>
    intro k n last code hsoft hr h2 hlt
    cases n with
    | zero => omega
    | succ m =>
      rw [postAttempts_2xx resp jit k m last code (by simpa using hr) h2]
      exact ⟨rfl, rfl⟩
  | succ j ih =>
    intro k n last code hsoft hr h2 hlt
    cases n with
    | zero => omega
    | succ m =>
      have hs0 : isSoft (resp k) = true := hsoft k (Nat.le_refl k) (by omega)
      rw [postAttempts_soft resp jit k m last hs0]
      have hrec := ih (k + 1) m (some (errOf (resp k))) code
        (fun i hi1 hi2 => hsoft i (by omega) (by omega))
        (by rw [show k + 1 + j = k + (j + 1) by omega]; exact hr) h2 (by omega)
      exact ⟨hrec.1, by simp [hrec.2]⟩

theorem postAttempts_first_perm4xx (resp : Nat → HTTPResp) (jit : Nat → Nat) :
    ∀ j k n last code, (∀ i, k ≤ i → i < k + j → isSoft (resp i) = true) →
      resp (k + j) = .status code → isPermanent4xx code = true → j < n →
      (postAttempts resp jit k n last).outcome = .clientError code ∧
        (postAttempts resp jit k n last).calls = j + 1 := by
  intro j
  induction j with
  | zero =>
    intro k n last code hsoft hr h4 hlt
    cases n with
    | zero => omega
    | succ m =>
      rw [postAttempts_perm4xx resp jit k m last code (by simpa using hr) h4]
      exact ⟨rfl, rfl⟩
  | succ j ih =>
    intro k n last code hsoft hr h4 hlt
    cases n with
    | zero => omega
    | succ m =>
      have hs0 : isSoft (resp k) = true := hsoft k (Nat.le_refl k) (by omega)
      rw [postAttempts_soft resp jit k m last hs0]
      have hrec := ih (k + 1) m (some (errOf (resp k))) code
        (fun i hi1 hi2 => hsoft i (by omega) (by omega))
        (by rw [show k + 1 + j = k + (j + 1) by omega]; exact hr) h4 (by omega)
      exact ⟨hrec.1, by simp [hrec.2]⟩

theorem postAttempts_all_soft (resp : Nat → HTTPResp) (jit : Nat → Nat) :
    ∀ n k last, (∀ i, k ≤ i → i < k + n → isSoft (resp i) = true) → 1 ≤ n →
      (postAttempts resp jit k n last).outcome =
        .hardFail (some (errOf (resp (k + n - 1)))) ∧
        (postAttempts resp jit k n last).calls = n := by
  intro n
  induction n with
  | zero => intro k last hsoft h1; omega
  | succ m ih =>
    intro k last hsoft h1
    have hs0 : isSoft (resp k) = true := hsoft k (Nat.le_refl k) (by omega)
    rw [postAttempts_soft resp jit k m last hs0]
    cases m with
    | zero =>
      simp [postAttempts]
    | succ m' =>
      have hrec := ih (k + 1) (some (errOf (resp k)))
        (fun i hi1 hi2 => hsoft i (by omega) (by omega)) (by omega)
      rw [show k + 1 + (m' + 1) - 1 = k + (m' + 1 + 1) - 1 by omega] at hrec
      exact ⟨hrec.1, by simp [hrec.2]⟩

theorem postAttempts_delays (resp : Nat → HTTPResp) (jit : Nat → Nat) :
    ∀ n k last, (postAttempts resp jit k n last).delays =
      ((List.range' k (postAttempts resp jit k n last).calls).filter
        (fun i => decide (0 < i))).map (fun i => delayNs i (jit i)) := by
  intro n
  induction n with
  | zero => intro k last; simp [postAttempts]
  | succ n ih =>
    intro k last
    cases hr : resp k with
    | netErr =>
      rw [postAttempts_soft resp jit k n last (by simp [isSoft, hr])]
      simp only [List.range'_succ _ _ 1, List.filter_cons, List.map_append]
      by_cases hk : 0 < k
      · simp [hk, ih (k + 1) _]
      · simp [hk, ih (k + 1) _]
    | status code =>
      cases h2 : is2xx code with
      | true =>
        rw [postAttempts_2xx resp jit k n last code hr h2]
        simp only [List.range'_succ _ _ 1]
        by_cases hk : 0 < k
        · simp [hk, List.range']
        · simp [hk, List.range']
      | false =>
        cases h4 : isPermanent4xx code with
        | true =>
          rw [postAttempts_perm4xx resp jit k n last code hr h4]
          simp only [List.range'_succ _ _ 1]
          by_cases hk : 0 < k
          · simp [hk, List.range']
          · simp [hk, List.range']
        | false =>
          rw [postAttempts_soft resp jit k n last (by simp [isSoft, hr, h2, h4])]
          simp only [List.range'_succ _ _ 1, List.filter_cons, List.map_append]
          by_cases hk : 0 < k
          · simp [hk, ih (k + 1) _]
          · simp [hk, ih (k + 1) _]

end deploymentrecord

namespace controller

theorem lastDeliveredStatus_append_nil (k : List Char)
    (log : List (List Char × List Char)) :
    lastDeliveredStatus k (log ++ []) = lastDeliveredStatus k log := by
  rw [List.append_nil]

theorem lastDeliveredStatus_append_hit (k st : List Char)
    (log : List (List Char × List Char)) :
    lastDeliveredStatus k (log ++ [(k, st)]) = some st := by
  unfold lastDeliveredStatus
  rw [List.filter_append]
  simp [List.getLast?_concat]

theorem lastDeliveredStatus_append_miss (k key st : List Char) (h : key ≠ k)
    (log : List (List Char × List Char)) :
    lastDeliveredStatus k (log ++ [(key, st)]) = lastDeliveredStatus k log := by
  unfold lastDeliveredStatus
  rw [List.filter_append]
  simp [List.filter_cons, h]

/-- One `recordContainer` body execution preserves the relation between
membership of `k` in the dedup cache and the successful-delivery log. -/
theorem core_step_inv (cfg : Config) (cache : Cache) (dn digest img status : List Char)
    (delivery : Delivery) (k : List Char) (log0 : List (List Char × List Char))
    (hinv : k ∈ cache ↔ lastDeliveredStatus k log0 = some deploymentrecord.StatusDeployed) :
    k ∈ (recordContainerCore cfg cache dn digest img status delivery).cache ↔
      lastDeliveredStatus k (log0 ++
        (if (recordContainerCore cfg cache dn digest img status delivery).posted = true ∧
            delivery = .ok
         then [(getCacheKey dn digest, status)] else [])) =
        some deploymentrecord.StatusDeployed := by
  by_cases hemp : dn = [] ∨ digest = []
  · rw [core_skip_empty cfg cache dn digest img status delivery hemp]
    simpa using hinv
  · by_cases hd : status = deploymentrecord.StatusDeployed
    · subst hd
      by_cases hin : getCacheKey dn digest ∈ cache
      · rw [core_deployed_skip cfg cache dn digest img delivery hemp hin]
        simpa using hinv
      · rw [core_deployed_post cfg cache dn digest img delivery hemp hin]
        cases delivery with
        | clientErr => simpa using hinv
        | failed e => simpa using hinv
        | ok =>
          simp only [true_and, and_self, if_true, reduceCtorEq]
          by_cases hk : k = getCacheKey dn digest
          · subst hk
            rw [lastDeliveredStatus_append_hit]
            simp [mem_storeKey]
          · rw [lastDeliveredStatus_append_miss _ _ _ (fun h => hk h.symm)]
            rw [mem_storeKey]
            simp only [hk, false_or]
            exact hinv
    · by_cases hdc : status = deploymentrecord.StatusDecommissioned
      · subst hdc
        by_cases hin : getCacheKey dn digest ∈ cache
        · rw [core_decommissioned_post cfg cache dn digest img delivery hemp hin]
          cases delivery with
          | clientErr => simpa using hinv
          | failed e => simpa using hinv
          | ok =>
            simp only [true_and, and_self, if_true, reduceCtorEq]
            by_cases hk : k = getCacheKey dn digest
            · subst hk
              rw [lastDeliveredStatus_append_hit]
              simp [mem_deleteKey]
              decide
            · rw [lastDeliveredStatus_append_miss _ _ _ (fun h => hk h.symm)]
              rw [mem_deleteKey]
              simp only [hk, ne_eq, not_false_iff, and_true]
              exact hinv
        · rw [core_decommissioned_skip cfg cache dn digest img delivery hemp hin]
          simpa using hinv
      · rw [core_invalid_status cfg cache dn digest img status delivery hemp ⟨hd, hdc⟩]
        simpa using hinv

theorem runTrace_inv (cfg : Config) (k : List Char) :
    ∀ (trace : List Step) (cache : Cache) (log0 : List (List Char × List Char)),
      (k ∈ cache ↔ lastDeliveredStatus k log0 = some deploymentrecord.StatusDeployed) →
      (k ∈ (runTrace cfg cache trace).1 ↔
        lastDeliveredStatus k (log0 ++ (runTrace cfg cache trace).2) =
          some deploymentrecord.StatusDeployed) := by
  intro trace
  induction trace with
  | nil => intro cache log0 hinv; simpa [runTrace] using hinv
  | cons s rest ih =>
    intro cache log0 hinv
    simp only [runTrace]
    rw [← List.append_assoc]
    exact ih _ _ (core_step_inv cfg cache s.dn s.digest s.img s.status s.delivery k log0 hinv)

/-- Cache-change characterization of one `recordContainer` body
execution: the cache is untouched unless a delivery succeeded, a key
appears only by a successful deployed POST for exactly that key, and a
key disappears only by a successful decommissioned POST for exactly that
key. -/
theorem core_cache_change (cfg : Config) (cache : Cache)
    (dn digest img status : List Char) (delivery : Delivery) :
    ((delivery ≠ .ok ∨
        (recordContainerCore cfg cache dn digest img status delivery).posted = false) →
      (recordContainerCore cfg cache dn digest img status delivery).cache = cache)
    ∧ (∀ k, k ∉ cache →
        k ∈ (recordContainerCore cfg cache dn digest img status delivery).cache →
        (recordContainerCore cfg cache dn digest img status delivery).posted = true ∧
          delivery = .ok ∧ status = deploymentrecord.StatusDeployed ∧
          k = getCacheKey dn digest)
    ∧ (∀ k, k ∈ cache →
        k ∉ (recordContainerCore cfg cache dn digest img status delivery).cache →
        (recordContainerCore cfg cache dn digest img status delivery).posted = true ∧
          delivery = .ok ∧ status = deploymentrecord.StatusDecommissioned ∧
          k = getCacheKey dn digest) := by
  by_cases hemp : dn = [] ∨ digest = []
  · rw [core_skip_empty cfg cache dn digest img status delivery hemp]
    exact ⟨fun _ => rfl, fun k h1 h2 => absurd h2 h1, fun k h1 h2 => absurd h1 h2⟩
  · by_cases hd : status = deploymentrecord.StatusDeployed
    · subst hd
      by_cases hin : getCacheKey dn digest ∈ cache
      · rw [core_deployed_skip cfg cache dn digest img delivery hemp hin]
        exact ⟨fun _ => rfl, fun k h1 h2 => absurd h2 h1, fun k h1 h2 => absurd h1 h2⟩
      · rw [core_deployed_post cfg cache dn digest img delivery hemp hin]
        cases delivery with
        | clientErr =>
          exact ⟨fun _ => rfl, fun k h1 h2 => absurd h2 h1, fun k h1 h2 => absurd h1 h2⟩
        | failed e =>
          exact ⟨fun _ => rfl, fun k h1 h2 => absurd h2 h1, fun k h1 h2 => absurd h1 h2⟩
        | ok =>
          refine ⟨fun h => ?_, fun k h1 h2 => ?_, fun k h1 h2 => ?_⟩
          · rcases h with h | h
            · exact absurd rfl h
            · exact absurd h (by simp)
          · rcases mem_storeKey.mp h2 with h | h
            · exact ⟨rfl, rfl, rfl, h⟩
            · exact absurd h h1
          · exact absurd (mem_storeKey.mpr (Or.inr h1)) h2
    · by_cases hdc : status = deploymentrecord.StatusDecommissioned
      · subst hdc
        by_cases hin : getCacheKey dn digest ∈ cache
        · rw [core_decommissioned_post cfg cache dn digest img delivery hemp hin]
          cases delivery with
          | clientErr =>
            exact ⟨fun _ => rfl, fun k h1 h2 => absurd h2 h1, fun k h1 h2 => absurd h1 h2⟩
          | failed e =>
            exact ⟨fun _ => rfl, fun k h1 h2 => absurd h2 h1, fun k h1 h2 => absurd h1 h2⟩
          | ok =>
            refine ⟨fun h => ?_, fun k h1 h2 => ?_, fun k h1 h2 => ?_⟩
            · rcases h with h | h
              · exact absurd rfl h
              · exact absurd h (by simp)
            · exact absurd ((mem_deleteKey.mp h2).1) h1
            · by_cases hk : k = getCacheKey dn digest
              · exact ⟨rfl, rfl, rfl, hk⟩
              · exact absurd (mem_deleteKey.mpr ⟨h1, hk⟩) h2
        · rw [core_decommissioned_skip cfg cache dn digest img delivery hemp hin]
          exact ⟨fun _ => rfl, fun k h1 h2 => absurd h2 h1, fun k h1 h2 => absurd h1 h2⟩
      · rw [core_invalid_status cfg cache dn digest img status delivery hemp ⟨hd, hdc⟩]
        exact ⟨fun _ => rfl, fun k h1 h2 => absurd h2 h1, fun k h1 h2 => absurd h1 h2⟩

end controller

namespace controller

theorem foldl_lastErr_isSome (rs : List RCOut) :
    ∀ acc : Option RCErr,
      (rs.foldl (fun acc r => if r.ret.isSome then r.ret else acc) acc).isSome =
        (acc.isSome || rs.any (fun r => r.ret.isSome)) := by
  induction rs with
  | nil => intro acc; simp
  | cons r rest ih =>
    intro acc
    simp only [List.foldl_cons, List.any_cons]
    rw [ih]
    cases hr : r.ret.isSome with
    | true => simp [hr]
    | false => simp [hr]

theorem lastErrOf_isSome (rs : List RCOut) :
    (lastErrOf rs).isSome = rs.any (fun r => r.ret.isSome) := by
  unfold lastErrOf
  rw [foldl_lastErr_isSome]
  simp

/-- With a valid status, a `recordContainer` body execution returns a
non-`nil` error exactly by passing through a non-permanent delivery
error, and then only after actually posting. -/
theorem core_ret_classify (cfg : Config) (cache : Cache)
    (dn digest img status : List Char) (delivery : Delivery)
    (hval : status = deploymentrecord.StatusDeployed ∨
      status = deploymentrecord.StatusDecommissioned)
    (hret : (recordContainerCore cfg cache dn digest img status delivery).ret.isSome = true) :
    (recordContainerCore cfg cache dn digest img status delivery).posted = true ∧
      ∃ e, delivery = .failed e ∧
        (recordContainerCore cfg cache dn digest img status delivery).ret =
          some (.deliveryErr e) := by
  by_cases hemp : dn = [] ∨ digest = []
  · rw [core_skip_empty cfg cache dn digest img status delivery hemp] at hret
    simp at hret
  · rcases hval with hd | hd
    · subst hd
      by_cases hin : getCacheKey dn digest ∈ cache
      · rw [core_deployed_skip cfg cache dn digest img delivery hemp hin] at hret
        simp at hret
      · rw [core_deployed_post cfg cache dn digest img delivery hemp hin] at hret ⊢
        cases delivery with
        | clientErr => simp at hret
        | failed e => exact ⟨rfl, e, rfl, rfl⟩
        | ok => simp at hret
    · subst hd
      by_cases hin : getCacheKey dn digest ∈ cache
      · rw [core_decommissioned_post cfg cache dn digest img delivery hemp hin] at hret ⊢
        cases delivery with
        | clientErr => simp at hret
        | failed e => exact ⟨rfl, e, rfl, rfl⟩
        | ok => simp at hret
      · rw [core_decommissioned_skip cfg cache dn digest img delivery hemp hin] at hret
        simp at hret

theorem runContainers_ret_classify (cfg : Config) (pod : Pod) (status : List Char)
    (hval : status = deploymentrecord.StatusDeployed ∨
      status = deploymentrecord.StatusDecommissioned) :
    ∀ (steps : List (Container × Delivery)) (cache : Cache),
      ∀ r ∈ (runContainers cfg cache pod status steps).2, r.ret.isSome = true →
        r.posted = true ∧ ∃ e, r.ret = some (.deliveryErr e) := by
  intro steps
  induction steps with
  | nil => intro cache r hr; simp [runContainers] at hr
  | cons step rest ih =>
    intro cache r hr hret
    simp only [runContainers, List.mem_cons] at hr
    rcases hr with rfl | hr
    · have := core_ret_classify cfg cache
        (getARDeploymentName pod step.1 cfg.template)
        (getContainerDigest pod step.1.name) step.1.image status step.2 hval
        (by simpa [recordContainer] using hret)
      refine ⟨by simpa [recordContainer] using this.1, ?_⟩
      obtain ⟨e, _, he⟩ := this.2
      exact ⟨e, by simpa [recordContainer] using he⟩
    · exact ih _ r hr hret

theorem processEvent_err_eq (cfg : Config) (cache : Cache) (eventType : List Char)
    (deletedPod : Option Pod) (lookup : CacheLookup) (probe : ProbeResult)
    (deliveries : Nat → Delivery) :
    (processEvent cfg cache eventType deletedPod lookup probe deliveries).err =
      lastErrOf (processEvent cfg cache eventType deletedPod lookup probe deliveries).results := by
  unfold processEvent
  by_cases he : eventType = EventDeleted
  · rw [if_pos he]
    cases deletedPod with
    | none => simp [lastErrOf]
    | some pod =>
      dsimp only
      by_cases hdd : getDeploymentName pod ≠ [] ∧ deploymentExists probe
      · rw [if_pos hdd]; simp [lastErrOf]
      · rw [if_neg hdd]
  · rw [if_neg he]
    cases lookup with
    | lookupErr => simp [lastErrOf]
    | absent => simp [lastErrOf]
    | invalidType => simp [lastErrOf]
    | found pod => rfl

/-- The status `processEvent` passes to the container loop is always one
of the two valid statuses, and the results it reports are exactly the
container-loop results on the chosen pod (or empty for the early
returns). -/
theorem processEvent_results_classify (cfg : Config) (cache : Cache)
    (eventType : List Char) (deletedPod : Option Pod) (lookup : CacheLookup)
    (probe : ProbeResult) (deliveries : Nat → Delivery) :
    ∀ r ∈ (processEvent cfg cache eventType deletedPod lookup probe deliveries).results,
      r.ret.isSome = true → r.posted = true ∧ ∃ e, r.ret = some (.deliveryErr e) := by
  unfold processEvent
  by_cases he : eventType = EventDeleted
  · rw [if_pos he]
    cases deletedPod with
    | none => intro r hr; simp at hr
    | some pod =>
      dsimp only
      by_cases hdd : getDeploymentName pod ≠ [] ∧ deploymentExists probe
      · rw [if_pos hdd]; intro r hr; simp at hr
      · rw [if_neg hdd]
        intro r hr
        refine runContainers_ret_classify cfg pod _ ?_ _ cache r hr
        rw [if_pos he]
        exact Or.inr rfl
  · rw [if_neg he]
    cases lookup with
    | lookupErr => intro r hr; simp at hr
    | absent => intro r hr; simp at hr
    | invalidType => intro r hr; simp at hr
    | found pod =>
      intro r hr
      refine runContainers_ret_classify cfg pod _ ?_ _ cache r hr
      rw [if_neg he]
      exact Or.inl rfl

end controller

/-- C7 (code bug): the claim's digest-extraction contract says that for
every input containing an occurrence of `sha256:` the result starts at
the first occurrence and runs to the next `'@'`/`' '` or end-of-string.
The scan loop `for i := 0; i < len(imageID)-7; i++` never inspects
position `len-7`, so an input whose only occurrence of `sha256:` is its
final seven characters (preceded by at least one character) is returned
unchanged instead: on `"xsha256:"`, which does contain `sha256:`, the
code yields `"xsha256:"` while the contract (and the function's own
comments) require `"sha256:"`. -/
theorem extractDigest_trailing_match_missed :
    containsSeq image.sha256Pat "xsha256:".data = true ∧
    image.ExtractDigest "xsha256:".data = "xsha256:".data ∧
    image.ExtractDigest "xsha256:".data ≠ "sha256:".data := by decide

/-- C8 (counterexample): work-queue equality of `PodEvent` items is Go
struct equality, which also compares the `DeletedPod` pointer field.
Two `Deleted` items with the same `Key` and `EventType` but distinct
captured pod pointers (addresses 0 and 1) are not equal, refuting the
claim that `Key` and `EventType` alone determine queue-item equality. -/
theorem podEvent_equality_counterexample :
    ¬ (controller.podEventEq
        ⟨"default/web-7f9c9b6d8-abcde".data, controller.EventDeleted, some 0⟩
        ⟨"default/web-7f9c9b6d8-abcde".data, controller.EventDeleted, some 1⟩ = true ↔
      ((⟨"default/web-7f9c9b6d8-abcde".data, controller.EventDeleted, some 0⟩ :
          controller.PodEvent Nat).key =
        (⟨"default/web-7f9c9b6d8-abcde".data, controller.EventDeleted, some 1⟩ :
          controller.PodEvent Nat).key ∧
       (⟨"default/web-7f9c9b6d8-abcde".data, controller.EventDeleted, some 0⟩ :
          controller.PodEvent Nat).eventType =
        (⟨"default/web-7f9c9b6d8-abcde".data, controller.EventDeleted, some 1⟩ :
          controller.PodEvent Nat).eventType)) := by decide

/-- C8 (amended): `PodEvent` queue-item equality is determined by `Key`,
`EventType` and the `DeletedPod` pointer together; for items whose
`DeletedPod` is nil — all `Created` items — it reduces to agreement on
`Key` and `EventType` alone, but `Deleted` items additionally require
the identical captured pod pointer. -/
theorem podEvent_equality_fields (a b : controller.PodEvent Nat) :
    (controller.podEventEq a b = true ↔
      a.key = b.key ∧ a.eventType = b.eventType ∧ a.deletedPod = b.deletedPod)
    ∧ (a.deletedPod = none → b.deletedPod = none →
      (controller.podEventEq a b = true ↔ a.key = b.key ∧ a.eventType = b.eventType)) := by
  unfold controller.podEventEq
  constructor
  · simp [Bool.and_eq_true, beq_iff_eq, and_assoc]
  · intro ha hb
    simp [Bool.and_eq_true, beq_iff_eq, and_assoc, ha, hb]

/-- Witness for the C8 amended theorem: two `Created`-style items (nil
`DeletedPod`) agreeing on `Key` and `EventType` are equal. -/
theorem podEvent_equality_fields_witness :
    controller.podEventEq
      ⟨"prod/web-7f9c9b6d8-abcde".data, controller.EventCreated, none⟩
      ⟨"prod/web-7f9c9b6d8-abcde".data, controller.EventCreated, none⟩ = true :=
  ((podEvent_equality_fields
      ⟨"prod/web-7f9c9b6d8-abcde".data, controller.EventCreated, none⟩
      ⟨"prod/web-7f9c9b6d8-abcde".data, controller.EventCreated, none⟩).2
    rfl rfl).mpr ⟨rfl, rfl⟩

/-- C9: `NewClient` fails exactly when the base URL uses the `http://`
scheme without matching the recognized local/in-cluster pattern
(`http://localhost...`, `http://127.0.0.1...`, or any URL containing
`.svc.cluster.local`), or the organization does not match
`^[a-zA-Z0-9_-]+$`.  Conversely, any base URL not starting with
`http://` — which is precisely the HTTPS-prefixed and scheme-less
URLs — paired with a matching organization yields a client. -/
theorem newClient_validation (baseURL org : List Char) :
    ((deploymentrecord.NewClient baseURL org).isOk = false ↔
      ("http://".data.isPrefixOf baseURL = true ∧
        deploymentrecord.isLocalURL baseURL = false) ∨
      deploymentrecord.validOrg org = false)
    ∧ ("http://".data.isPrefixOf baseURL = false →
        deploymentrecord.validOrg org = true →
        (deploymentrecord.NewClient baseURL org).isOk = true) := by
  constructor
  · cases hhttp : "http://".data.isPrefixOf baseURL <;>
      cases hlocal : deploymentrecord.isLocalURL baseURL <;>
      cases horg : deploymentrecord.validOrg org <;>
      simp [deploymentrecord.NewClient, hhttp, hlocal, horg, Except.isOk, Except.toBool]
  · intro hp ho
    simp [deploymentrecord.NewClient, hp, ho, Except.isOk, Except.toBool]

theorem newClient_validation_witness :
    (deploymentrecord.NewClient "api.github.com".data "my-org".data).isOk = true :=
  (newClient_validation "api.github.com".data "my-org".data).2 (by decide) (by decide)

theorem newDeploymentRecord_status (name digest version le pe cl st dn : List Char) :
    (deploymentrecord.NewDeploymentRecord name digest version le pe cl st dn).status =
      if st ≠ deploymentrecord.StatusDeployed ∧ st ≠ deploymentrecord.StatusDecommissioned
      then deploymentrecord.StatusDeployed else st := rfl

/-- C10: `NewDeploymentRecord` never fails; every field except the
status is passed through unchanged, the status of the returned record is
always one of the two constants, an invalid status argument is silently
replaced by `deployed`, and a valid status argument is kept. -/
theorem newDeploymentRecord_fields (name digest version le pe cl st dn : List Char) :
    (deploymentrecord.NewDeploymentRecord name digest version le pe cl st dn).name = name ∧
    (deploymentrecord.NewDeploymentRecord name digest version le pe cl st dn).digest = digest ∧
    (deploymentrecord.NewDeploymentRecord name digest version le pe cl st dn).version = version ∧
    (deploymentrecord.NewDeploymentRecord name digest version le pe cl st dn).logicalEnvironment = le ∧
    (deploymentrecord.NewDeploymentRecord name digest version le pe cl st dn).physicalEnvironment = pe ∧
    (deploymentrecord.NewDeploymentRecord name digest version le pe cl st dn).cluster = cl ∧
    (deploymentrecord.NewDeploymentRecord name digest version le pe cl st dn).deploymentName = dn ∧
    ((deploymentrecord.NewDeploymentRecord name digest version le pe cl st dn).status =
        deploymentrecord.StatusDeployed ∨
      (deploymentrecord.NewDeploymentRecord name digest version le pe cl st dn).status =
        deploymentrecord.StatusDecommissioned) ∧
    (st ≠ deploymentrecord.StatusDeployed ∧ st ≠ deploymentrecord.StatusDecommissioned →
      (deploymentrecord.NewDeploymentRecord name digest version le pe cl st dn).status =
        deploymentrecord.StatusDeployed) ∧
    ((st = deploymentrecord.StatusDeployed ∨ st = deploymentrecord.StatusDecommissioned) →
      (deploymentrecord.NewDeploymentRecord name digest version le pe cl st dn).status = st) := by
  refine ⟨rfl, rfl, rfl, rfl, rfl, rfl, rfl, ?_, ?_, ?_⟩ <;>
    rw [newDeploymentRecord_status]
  · by_cases h : st ≠ deploymentrecord.StatusDeployed ∧ st ≠ deploymentrecord.StatusDecommissioned
    · rw [if_pos h]
      exact Or.inl rfl
    · rw [if_neg h]
      push_neg at h
      by_cases h1 : st = deploymentrecord.StatusDeployed
      · exact Or.inl h1
      · exact Or.inr (h h1)
  · intro hi
    rw [if_pos hi]
  · intro hv
    rw [if_neg (fun hi => by rcases hv with hv | hv; exacts [hi.1 hv, hi.2 hv])]

/-- Witness for C10: an invalid status argument (`"bogus"`) is replaced
by `deployed`. -/
theorem newDeploymentRecord_fields_witness :
    (deploymentrecord.NewDeploymentRecord "nginx".data "sha256:aaaa".data "1.21".data
      "env".data "phys".data "cl".data "bogus".data "prod/web/app".data).status =
      deploymentrecord.StatusDeployed :=
  (newDeploymentRecord_fields "nginx".data "sha256:aaaa".data "1.21".data
    "env".data "phys".data "cl".data "bogus".data
    "prod/web/app".data).2.2.2.2.2.2.2.2.1 (by decide)

namespace controller

/-- C5: for every `Deleted` work item whose captured pod resolves to a
logical workload name, if the deployment-existence probe does not report
not-found — it found the deployment, or failed with any other error
(treated as "assume exists") — then `processEvent` returns `nil`
without running `recordContainer` on any container (so no decommissioned
record is posted) and with the dedup cache unchanged. -/
theorem deleted_scale_down_no_op (cfg : Config) (cache : Cache) (pod : Pod)
    (lookup : CacheLookup) (probe : ProbeResult) (deliveries : Nat → Delivery)
    (hdn : getDeploymentName pod ≠ []) (hpr : probe ≠ .notFound) :
    processEvent cfg cache EventDeleted (some pod) lookup probe deliveries =
      ⟨cache, none, []⟩ := by
  have hex : deploymentExists probe = true := by
    cases probe
    · rfl
    · exact absurd rfl hpr
    · rfl
  unfold processEvent
  rw [if_pos rfl]
  dsimp only
  rw [if_pos ⟨hdn, hex⟩]

/-- Witness for C5: the sample deleted pod (owned by ReplicaSet
`web-7f9c9b6d8`, so it resolves to workload `web`) with a probe that
found the deployment is a no-op success. -/
theorem deleted_scale_down_no_op_witness :
    processEvent sampleConfig [] EventDeleted (some samplePod) .lookupErr .found
      (fun _ => .ok) = ⟨[], none, []⟩ :=
  deleted_scale_down_no_op sampleConfig [] samplePod .lookupErr .found (fun _ => .ok)
    (by decide) (by decide)

theorem core_posted_ret (cfg : Config) (cache : Cache) (dn digest img status : List Char)
    (d : Delivery)
    (hp : (recordContainerCore cfg cache dn digest img status d).posted = true) :
    (recordContainerCore cfg cache dn digest img status d).ret =
      match d with
      | .ok => none
      | .clientErr => none
      | .failed e => some (.deliveryErr e) := by
  by_cases hemp : dn = [] ∨ digest = []
  · rw [core_skip_empty cfg cache dn digest img status d hemp] at hp
    simp at hp
  · by_cases hd : status = deploymentrecord.StatusDeployed
    · subst hd
      by_cases hin : getCacheKey dn digest ∈ cache
      · rw [core_deployed_skip cfg cache dn digest img d hemp hin] at hp
        simp at hp
      · rw [core_deployed_post cfg cache dn digest img d hemp hin]
        cases d <;> rfl
    · by_cases hdc : status = deploymentrecord.StatusDecommissioned
      · subst hdc
        by_cases hin : getCacheKey dn digest ∈ cache
        · rw [core_decommissioned_post cfg cache dn digest img d hemp hin]
          cases d <;> rfl
        · rw [core_decommissioned_skip cfg cache dn digest img d hemp hin] at hp
          simp at hp
      · rw [core_invalid_status cfg cache dn digest img status d hemp ⟨hd, hdc⟩] at hp
        simp at hp

/-- C6: a `*ClientError` delivery outcome makes `recordContainer`
return `nil` (so a permanently rejected record never triggers the outer
backoff requeue); any other `PostOne` error is returned as-is; and
`processEvent` returns a non-`nil` error exactly when at least one of
its containers' `recordContainer` calls returned such a non-permanent
delivery error (which is the only kind of error a container call can
return for the statuses `processEvent` uses). -/
theorem error_aggregation :
    (∀ (cfg : Config) (cache : Cache) (pod : Pod) (container : Container)
        (status : List Char),
      (recordContainer cfg cache pod container status .clientErr).posted = true →
      (recordContainer cfg cache pod container status .clientErr).ret = none)
    ∧ (∀ (cfg : Config) (cache : Cache) (pod : Pod) (container : Container)
        (status : List Char) (e : List Char),
      (recordContainer cfg cache pod container status (.failed e)).posted = true →
      (recordContainer cfg cache pod container status (.failed e)).ret =
        some (.deliveryErr e))
    ∧ (∀ (cfg : Config) (cache : Cache) (eventType : List Char)
        (deletedPod : Option Pod) (lookup : CacheLookup) (probe : ProbeResult)
        (deliveries : Nat → Delivery),
      ((processEvent cfg cache eventType deletedPod lookup probe deliveries).err ≠ none ↔
        ∃ r ∈ (processEvent cfg cache eventType deletedPod lookup probe deliveries).results,
          r.ret ≠ none)
      ∧ ∀ r ∈ (processEvent cfg cache eventType deletedPod lookup probe deliveries).results,
          r.ret ≠ none → r.posted = true ∧ ∃ e, r.ret = some (.deliveryErr e)) := by
  refine ⟨?_, ?_, ?_⟩
  · intro cfg cache pod container status hp
    exact core_posted_ret cfg cache _ _ _ status .clientErr hp
  · intro cfg cache pod container status e hp
    exact core_posted_ret cfg cache _ _ _ status (.failed e) hp
  · intro cfg cache eventType deletedPod lookup probe deliveries
    constructor
    · rw [← Option.isSome_iff_ne_none, processEvent_err_eq, lastErrOf_isSome]
      rw [List.any_eq_true]
      constructor
      · rintro ⟨r, hr, hsome⟩
        exact ⟨r, hr, Option.isSome_iff_ne_none.mp hsome⟩
      · rintro ⟨r, hr, hne⟩
        exact ⟨r, hr, Option.isSome_iff_ne_none.mpr hne⟩
    · intro r hr hne
      exact processEvent_results_classify cfg cache eventType deletedPod lookup probe
        deliveries r hr (Option.isSome_iff_ne_none.mpr hne)

/-- Witness for C6: a decommission delivery failing with a retryable
error on a cached identity propagates that error out of
`recordContainer`. -/
theorem error_aggregation_witness :
    (recordContainer sampleConfig ["prod/web/app||sha256:aaaa".data] samplePod
      ⟨"app".data, "nginx:1.21".data⟩ deploymentrecord.StatusDecommissioned
      (.failed "boom".data)).ret = some (.deliveryErr "boom".data) :=
  error_aggregation.2.1 sampleConfig ["prod/web/app||sha256:aaaa".data] samplePod
    ⟨"app".data, "nginx:1.21".data⟩ deploymentrecord.StatusDecommissioned "boom".data
    (by decide)

end controller

namespace controller

/-- C1 (counterexample): with all deliveries succeeding, a
deployed → decommissioned → deployed sequence on one identity from an
empty dedup cache issues three POSTs, not the claimed two: the first
deployed posts and inserts the entry, the decommissioned finds the entry
so it posts and removes it, and the second deployed again finds no entry
so it posts once more. -/
theorem deploy_decommission_deploy_three_posts :
    (runStatuses sampleConfig "nginx:1.21".data "prod/web/app".data "sha256:aaaa".data []
      [deploymentrecord.StatusDeployed, deploymentrecord.StatusDecommissioned,
        deploymentrecord.StatusDeployed]).2 = 3 ∧
    (runStatuses sampleConfig "nginx:1.21".data "prod/web/app".data "sha256:aaaa".data []
      [deploymentrecord.StatusDeployed, deploymentrecord.StatusDecommissioned,
        deploymentrecord.StatusDeployed]).2 ≠ 2 := by decide

/-- C1 (amended): for a container identity with nonempty name and
digest, with every delivery succeeding, a deployed-status record is
POSTed iff the dedup cache holds no entry for the identity and a
decommissioned-status record is POSTed iff it holds one; consequently
two consecutive deployed events produce exactly one POST, a
decommissioned event with no prior entry produces zero POSTs, and a
deployed → decommissioned → deployed sequence produces exactly three
POSTs (amended from the claimed two: the decommissioned event removes
the entry, so the final deployed event posts again). -/
theorem idempotency_gate_post_counts (cfg : Config) (img dn digest : List Char)
    (cache : Cache) (h1 : dn ≠ []) (h2 : digest ≠ []) :
    ((recordContainerCore cfg cache dn digest img deploymentrecord.StatusDeployed .ok).posted =
        true ↔ getCacheKey dn digest ∉ cache)
    ∧ ((recordContainerCore cfg cache dn digest img
        deploymentrecord.StatusDecommissioned .ok).posted = true ↔
        getCacheKey dn digest ∈ cache)
    ∧ (getCacheKey dn digest ∉ cache →
        (runStatuses cfg img dn digest cache
          [deploymentrecord.StatusDeployed, deploymentrecord.StatusDeployed]).2 = 1
        ∧ (runStatuses cfg img dn digest cache
            [deploymentrecord.StatusDecommissioned]).2 = 0
        ∧ (runStatuses cfg img dn digest cache
            [deploymentrecord.StatusDeployed, deploymentrecord.StatusDecommissioned,
              deploymentrecord.StatusDeployed]).2 = 3) := by
  have hemp : ¬(dn = [] ∨ digest = []) := fun h => h.elim h1 h2
  refine ⟨?_, ?_, fun hni => ⟨?_, ?_, ?_⟩⟩
  · by_cases hin : getCacheKey dn digest ∈ cache
    · rw [core_deployed_skip cfg cache dn digest img .ok hemp hin]
      simp [hin]
    · rw [core_deployed_post cfg cache dn digest img .ok hemp hin]
      simp [hin]
  · by_cases hin : getCacheKey dn digest ∈ cache
    · rw [core_decommissioned_post cfg cache dn digest img .ok hemp hin]
      simp [hin]
    · rw [core_decommissioned_skip cfg cache dn digest img .ok hemp hin]
      simp [hin]
  · simp only [runStatuses]
    rw [core_deployed_post cfg cache dn digest img .ok hemp hni]
    dsimp only
    rw [core_deployed_skip cfg (storeKey (getCacheKey dn digest) cache) dn digest img .ok
      hemp (mem_storeKey.mpr (Or.inl rfl))]
    simp
  · simp only [runStatuses]
    rw [core_decommissioned_skip cfg cache dn digest img .ok hemp hni]
    simp
  · simp only [runStatuses]
    rw [core_deployed_post cfg cache dn digest img .ok hemp hni]
    dsimp only
    rw [core_decommissioned_post cfg (storeKey (getCacheKey dn digest) cache) dn digest img
      .ok hemp (mem_storeKey.mpr (Or.inl rfl))]
    dsimp only
    rw [core_deployed_post cfg
      (deleteKey (getCacheKey dn digest) (storeKey (getCacheKey dn digest) cache))
      dn digest img .ok hemp (fun hmem => (mem_deleteKey.mp hmem).2 rfl)]
    simp

/-- Witness for the C1 amended theorem: two consecutive deployed events
for a fresh identity produce exactly one POST. -/
theorem idempotency_gate_post_counts_witness :
    (runStatuses sampleConfig "nginx:1.21".data "prod/web/app".data "sha256:aaaa".data []
      [deploymentrecord.StatusDeployed, deploymentrecord.StatusDeployed]).2 = 1 :=
  ((idempotency_gate_post_counts sampleConfig "nginx:1.21".data "prod/web/app".data
      "sha256:aaaa".data [] (by decide) (by decide)).2.2 (by decide)).1

/-- C2: after any sequence of `recordContainer` body executions from an
empty dedup cache, a key is present iff the last successful delivery
logged for that key had status deployed (no later successful
decommissioned delivery having occurred); moreover a single execution
leaves the cache untouched unless its delivery succeeded, a key appears
only through a successful deployed POST for exactly that key, and a key
disappears only through a successful decommissioned POST for exactly
that key — so failed and skipped deliveries never change the cache. -/
theorem dedup_cache_invariant :
    (∀ (cfg : Config) (trace : List Step) (k : List Char),
      k ∈ (runTrace cfg [] trace).1 ↔
        lastDeliveredStatus k (runTrace cfg [] trace).2 =
          some deploymentrecord.StatusDeployed)
    ∧ (∀ (cfg : Config) (cache : Cache) (dn digest img status : List Char)
        (delivery : Delivery),
      ((delivery ≠ .ok ∨
          (recordContainerCore cfg cache dn digest img status delivery).posted = false) →
        (recordContainerCore cfg cache dn digest img status delivery).cache = cache)
      ∧ (∀ k, k ∉ cache →
          k ∈ (recordContainerCore cfg cache dn digest img status delivery).cache →
          (recordContainerCore cfg cache dn digest img status delivery).posted = true ∧
            delivery = .ok ∧ status = deploymentrecord.StatusDeployed ∧
            k = getCacheKey dn digest)
      ∧ (∀ k, k ∈ cache →
          k ∉ (recordContainerCore cfg cache dn digest img status delivery).cache →
          (recordContainerCore cfg cache dn digest img status delivery).posted = true ∧
            delivery = .ok ∧ status = deploymentrecord.StatusDecommissioned ∧
            k = getCacheKey dn digest)) := by
  constructor
  · intro cfg trace k
    have hbase : k ∈ ([] : Cache) ↔
        lastDeliveredStatus k [] = some deploymentrecord.StatusDeployed := by
      simp [lastDeliveredStatus]
    simpa using runTrace_inv cfg k trace [] [] hbase
  · intro cfg cache dn digest img status delivery
    exact core_cache_change cfg cache dn digest img status delivery

/-- Witness for C2: a delivery that fails with a `ClientError` leaves
the dedup cache unchanged. -/
theorem dedup_cache_invariant_witness :
    (recordContainerCore sampleConfig [] "prod/web/app".data "sha256:aaaa".data
      "nginx:1.21".data deploymentrecord.StatusDeployed .clientErr).cache = [] :=
  (dedup_cache_invariant.2 sampleConfig [] "prod/web/app".data "sha256:aaaa".data
    "nginx:1.21".data deploymentrecord.StatusDeployed .clientErr).1 (Or.inl (by decide))

end controller

namespace deploymentrecord

/-- C3: the `PostOne` attempt loop makes at most `retries + 1` HTTP
attempts; the first 2xx response returns `nil` with exactly that many
calls; the first non-429 4xx response stops at once with a
`ClientError` (so 404 on the first attempt means exactly one call);
network errors, 5xx and 429 lead to further attempts while attempts
remain; and when all `retries + 1` attempts fail softly the result is
the hard-fail error wrapping the last observed error. -/
theorem postOne_attempt_classification (resp : Nat → HTTPResp) (jit : Nat → Nat)
    (retries : Nat) :
    ((PostOne resp jit retries).calls ≤ retries + 1)
    ∧ (∀ j code, (∀ i, i < j → isSoft (resp i) = true) → resp j = .status code →
        is2xx code = true → j ≤ retries →
        (PostOne resp jit retries).outcome = .success ∧
          (PostOne resp jit retries).calls = j + 1)
    ∧ (∀ j code, (∀ i, i < j → isSoft (resp i) = true) → resp j = .status code →
        isPermanent4xx code = true → j ≤ retries →
        (PostOne resp jit retries).outcome = .clientError code ∧
          (PostOne resp jit retries).calls = j + 1)
    ∧ ((∀ i, i ≤ retries → isSoft (resp i) = true) →
        (PostOne resp jit retries).outcome = .hardFail (some (errOf (resp retries))) ∧
          (PostOne resp jit retries).calls = retries + 1) := by
  refine ⟨postAttempts_calls_le resp jit (retries + 1) 0 none, ?_, ?_, ?_⟩
  · intro j code hsoft hr h2 hle
    exact postAttempts_first_2xx resp jit j 0 (retries + 1) none code
      (fun i _ hlt => hsoft i (by omega)) (by simpa using hr) h2 (by omega)
  · intro j code hsoft hr h4 hle
    exact postAttempts_first_perm4xx resp jit j 0 (retries + 1) none code
      (fun i _ hlt => hsoft i (by omega)) (by simpa using hr) h4 (by omega)
  · intro hsoft
    have hall := postAttempts_all_soft resp jit (retries + 1) 0 none
      (fun i _ hlt => hsoft i (by omega)) (by omega)
    rw [show 0 + (retries + 1) - 1 = retries by omega] at hall
    exact hall

/-- Witness for C3: a delivery answered 404 on the first attempt makes
exactly one call and is classified as a permanent `ClientError`. -/
theorem postOne_attempt_classification_witness :
    (PostOne (fun _ => .status 404) (fun _ => 0) 3).outcome = .clientError 404 ∧
    (PostOne (fun _ => .status 404) (fun _ => 0) 3).calls = 1 :=
  (postOne_attempt_classification (fun _ => .status 404) (fun _ => 0) 3).2.2.1 0 404
    (fun i hi => absurd hi (Nat.not_lt_zero i)) rfl (by decide) (by omega)

theorem delayNs_le_cap (k j : Nat) : delayNs k j ≤ 5000000000 := by
  simp only [delayNs]
  split <;> omega

theorem wrap64_eq_self (x : Int) (h1 : -9223372036854775808 ≤ x)
    (h2 : x < 9223372036854775808) : wrap64 x = x := by
  unfold wrap64
  have h63 : (2 : Int) ^ 63 = 9223372036854775808 := by norm_num
  have h64 : (2 : Int) ^ 64 = 18446744073709551616 := by norm_num
  rw [h63, h64]
  rw [Int.emod_eq_of_lt (by omega) (by omega)]
  omega

/-- In the overflow-free regime `k ≤ 36` (where
`2^k·100ms + jitter < 2^63 ns`), the computed delay equals the spec's
`min(5s, 2^k·100ms + jitter)`. -/
theorem delayNs_eq_min (k j : Nat) (hk : k ≤ 36) (hj : j < 50) :
    delayNs k j =
      min 5000000000 ((2 : Int) ^ k * 100000000 + (j : Int) * 1000000) := by
  have h2k : (2 : Int) ^ k ≤ 68719476736 := by
    calc (2 : Int) ^ k ≤ 2 ^ 36 := pow_le_pow_right₀ (by norm_num) hk
    _ = 68719476736 := by norm_num
  have h2kpos : (0 : Int) < 2 ^ k := pow_pos (by norm_num) k
  have hj' : (j : Int) < 50 := by exact_mod_cast hj
  have hj0 : (0 : Int) ≤ (j : Int) := Int.ofNat_nonneg j
  simp only [delayNs]
  rw [wrap64_eq_self ((2 : Int) ^ k * 100) (by omega) (by omega)]
  rw [wrap64_eq_self ((2 : Int) ^ k * 100 * 1000000) (by omega) (by omega)]
  rw [wrap64_eq_self ((2 : Int) ^ k * 100 * 1000000 + (j : Int) * 1000000)
    (by omega) (by omega)]
  rw [min_def]
  split_ifs <;> omega

/-- At attempt index 37 the `int64` nanosecond computation overflows:
`2^37·100ms = 2^37·10^8 ns` wraps to `-4702848726509551616`, which is
below the 5-second cap, so the computed delay is negative for every
jitter draw and the backoff wait fires immediately instead of sleeping
the capped 5 seconds. -/
theorem delayNs_37_neg (j : Nat) (hj : j < 50) : delayNs 37 j < 0 := by
  have hj' : (j : Int) < 50 := by exact_mod_cast hj
  have hj0 : (0 : Int) ≤ (j : Int) := Int.ofNat_nonneg j
  have e0 : ((2 : Int) ^ 37 * 100) = 13743895347200 := by norm_num
  have e1 : wrap64 13743895347200 = 13743895347200 :=
    wrap64_eq_self _ (by norm_num) (by norm_num)
  have e2 : wrap64 (13743895347200 * 1000000) = -4702848726509551616 := by decide
  have e3 : wrap64 (-4702848726509551616 + (j : Int) * 1000000) =
      -4702848726509551616 + (j : Int) * 1000000 :=
    wrap64_eq_self _ (by omega) (by omega)
  simp only [delayNs, e0, e1, e2, e3]
  split <;> omega

theorem filter_pos_range' (c : Nat) :
    (List.range' 0 c).filter (fun i => decide (0 < i)) = List.range' 1 (c - 1) := by
  cases c with
  | zero => simp
  | succ m =>
    rw [List.range'_succ 0 m 1, List.filter_cons]
    have h0 : decide (0 < 0) = false := by decide
    rw [h0]
    simp only [Bool.false_eq_true, if_false, Nat.succ_sub_one]
    exact List.filter_eq_self.mpr
      (fun a ha => by
        have := (List.mem_range'_1.mp ha).1
        simp
        omega)

set_option maxRecDepth 4000 in
/-- C4 (counterexample): a delivery configured with `retries = 37`
(reachable through `WithRetries`) that keeps answering 500 reaches
attempt 37, and the backoff computed before it — one of the delays of
that very `PostOne` run — is `wrap64(2^37·10^8 ns) =
-4702848726509551616`: negative, hence no sleep at all, not the
`min(5s, 2^37·100ms + jitter) = 5s` the claim states for every
attempt `k > 0`. -/
theorem postOne_backoff_overflow :
    delayNs 37 0 ∈ (PostOne (fun _ => .status 500) (fun _ => 0) 37).delays ∧
    delayNs 37 0 = -4702848726509551616 ∧
    delayNs 37 0 < 0 ∧
    delayNs 37 0 ≠ min 5000000000 ((2 : Int) ^ 37 * 100000000 + 0 * 1000000) := by
  refine ⟨?_, by decide, by decide, by decide⟩
  have hdel := postAttempts_delays (fun _ => .status 500) (fun _ => 0) 38 0 none
  have hall := postAttempts_all_soft (fun _ => .status 500) (fun _ => 0) 38 0 none
    (fun i _ _ => rfl) (by omega)
  rw [PostOne]
  rw [hdel, hall.2, filter_pos_range']
  exact List.mem_map.mpr ⟨37, by decide, rfl⟩

set_option maxRecDepth 4000 in
/-- C4 (amended): inside the `PostOne` loop a backoff wait happens
before every attempt `k > 0` and never before attempt 0 (the delay list
is exactly the delays computed for attempt indices `1 .. calls-1`); for
attempt indices `k ≤ 36` and jitter draws below 50ms — the range of
`rand.Int64N(50)` — each delay equals `min(5000ms, 2^k*100ms + jitter)`
as claimed, but at `k = 37` the `int64` nanosecond computation
overflows and wraps negative, so the wait fires immediately instead of
sleeping the capped 5 seconds; for `retries = 3` (all attempt indices
`≤ 3`) with 500 responses on the first three attempts and 200 on the
fourth, the call succeeds with four calls and three strictly increasing
delays, all capped at 5000ms. -/
theorem postOne_backoff_delays (resp : Nat → HTTPResp) (jit : Nat → Nat)
    (retries : Nat) (hjit : ∀ k, jit k < 50) :
    ((PostOne resp jit retries).delays =
      (List.range' 1 ((PostOne resp jit retries).calls - 1)).map
        (fun k => delayNs k (jit k)))
    ∧ (∀ k j, k ≤ 36 → j < 50 →
        delayNs k j =
          min 5000000000 ((2 : Int) ^ k * 100000000 + (j : Int) * 1000000))
    ∧ (∀ j, j < 50 → delayNs 37 j < 0)
    ∧ (retries = 3 → (∀ i, i < 3 → resp i = .status 500) → resp 3 = .status 200 →
        (PostOne resp jit retries).outcome = .success
        ∧ (PostOne resp jit retries).calls = 4
        ∧ (PostOne resp jit retries).delays =
            [delayNs 1 (jit 1), delayNs 2 (jit 2), delayNs 3 (jit 3)]
        ∧ delayNs 1 (jit 1) < delayNs 2 (jit 2)
        ∧ delayNs 2 (jit 2) < delayNs 3 (jit 3)
        ∧ ∀ d ∈ (PostOne resp jit retries).delays, d ≤ 5000000000) := by
  have hdel : (PostOne resp jit retries).delays =
      (List.range' 1 ((PostOne resp jit retries).calls - 1)).map
        (fun k => delayNs k (jit k)) := by
    rw [PostOne, postAttempts_delays resp jit (retries + 1) 0 none, filter_pos_range']
  refine ⟨hdel, fun k j hk hj => delayNs_eq_min k j hk hj,
    fun j hj => delayNs_37_neg j hj, ?_⟩
  intro hret h500 h200
  subst hret
  have hsoft : ∀ i, 0 ≤ i → i < 0 + 3 → isSoft (resp i) = true := by
    intro i _ hi
    rw [h500 i (by omega)]
    decide
  have hcd := postAttempts_first_2xx resp jit 3 0 4 none 200 hsoft
    (by simpa using h200) (by decide) (by omega)
  have hcalls : (PostOne resp jit 3).calls = 4 := hcd.2
  have e1 : delayNs 1 (jit 1) = 200000000 + (jit 1 : Int) * 1000000 := by
    rw [delayNs_eq_min 1 (jit 1) (by omega) (hjit 1)]
    have hlt : ((jit 1 : Nat) : Int) < 50 := by exact_mod_cast hjit 1
    have hge : (0 : Int) ≤ ((jit 1 : Nat) : Int) := Int.ofNat_nonneg _
    have hpw : (2 : Int) ^ 1 * 100000000 = 200000000 := by norm_num
    rw [hpw, min_def]
    split_ifs with hc
    · omega
    · rfl
  have e2 : delayNs 2 (jit 2) = 400000000 + (jit 2 : Int) * 1000000 := by
    rw [delayNs_eq_min 2 (jit 2) (by omega) (hjit 2)]
    have hlt : ((jit 2 : Nat) : Int) < 50 := by exact_mod_cast hjit 2
    have hge : (0 : Int) ≤ ((jit 2 : Nat) : Int) := Int.ofNat_nonneg _
    have hpw : (2 : Int) ^ 2 * 100000000 = 400000000 := by norm_num
    rw [hpw, min_def]
    split_ifs with hc
    · omega
    · rfl
  have e3 : delayNs 3 (jit 3) = 800000000 + (jit 3 : Int) * 1000000 := by
    rw [delayNs_eq_min 3 (jit 3) (by omega) (hjit 3)]
    have hlt : ((jit 3 : Nat) : Int) < 50 := by exact_mod_cast hjit 3
    have hge : (0 : Int) ≤ ((jit 3 : Nat) : Int) := Int.ofNat_nonneg _
    have hpw : (2 : Int) ^ 3 * 100000000 = 800000000 := by norm_num
    rw [hpw, min_def]
    split_ifs with hc
    · omega
    · rfl
  have hds : (PostOne resp jit 3).delays =
      [delayNs 1 (jit 1), delayNs 2 (jit 2), delayNs 3 (jit 3)] := by
    rw [hdel, hcalls]
    rfl
  have hj1 : ((jit 1 : Nat) : Int) < 50 := by exact_mod_cast hjit 1
  have hj2 : ((jit 2 : Nat) : Int) < 50 := by exact_mod_cast hjit 2
  have hj3 : ((jit 3 : Nat) : Int) < 50 := by exact_mod_cast hjit 3
  have hj1n : (0 : Int) ≤ ((jit 1 : Nat) : Int) := Int.ofNat_nonneg _
  have hj2n : (0 : Int) ≤ ((jit 2 : Nat) : Int) := Int.ofNat_nonneg _
  have hj3n : (0 : Int) ≤ ((jit 3 : Nat) : Int) := Int.ofNat_nonneg _
  refine ⟨hcd.1, hcalls, hds, ?_, ?_, ?_⟩
  · rw [e1, e2]
    omega
  · rw [e2, e3]
    omega
  · intro d hd
    rw [hdel] at hd
    obtain ⟨k, _, rfl⟩ := List.mem_map.mp hd
    exact delayNs_le_cap _ _

set_option maxRecDepth 4000 in
/-- Witness for the C4 amended theorem: the 500/500/500/200 schedule
with zero jitter, applied at `retries = 3`, succeeds after four calls
with the delays 200ms, 400ms and 800ms. -/
theorem postOne_backoff_delays_witness :
    (PostOne (fun i => if i < 3 then HTTPResp.status 500 else .status 200)
      (fun _ => 0) 3).calls = 4 ∧
    (PostOne (fun i => if i < 3 then HTTPResp.status 500 else .status 200)
      (fun _ => 0) 3).delays = [200000000, 400000000, 800000000] := by
  have h := (postOne_backoff_delays
    (fun i => if i < 3 then HTTPResp.status 500 else .status 200) (fun _ => 0) 3
    (fun _ => by show (0 : Nat) < 50; decide)).2.2.2 rfl
    (fun i hi => by simp only [if_pos hi]) (by norm_num)
  exact ⟨h.2.1, by rw [h.2.2.1]; decide⟩

end deploymentrecord
